import Mathlib

/-!
# Verification of the `cartified` cart service (src/ng-cart.js)

Shallow embedding of the AngularJS cart service.  The embedding follows the
source file `src/ng-cart.js`:

* `Item` models the `{id, qty}` records the cart stores (ids and quantities
  are the numbers used throughout the demo; we embed them as `Nat`).
* `toJson` / `fromJson` model `angular.toJson` / `angular.fromJson`
  (`JSON.stringify` / `JSON.parse`) restricted to the serialized item-list
  grammar `[{"id":N,"qty":N},...]` that the service itself writes.  Strings
  outside this grammar are treated as parse failures (`JSON.parse` likewise
  fails on the concrete malformed blobs used below, e.g. a lone `\x7b`).
* `fetch`, `save`, `persist` model the `storage` wrapper (lines 35-86).
* The event registry (`eventStack`, `onEvent`, `fireCustomEvent`,
  `unbindEvent`, lines 20, 300-326) is modelled with opaque handler tags:
  `fireInvokes` computes which bindings a fire reaches, in registry order.
* The cart operations (`getCart`, `addItem`, `addItems`, `getById`,
  `remove`, `changeQuantity`, `save`, lines 124-280) are modelled as pure
  functions on the fetched item list, returning the fired events; the
  `sys-modified` handler installed by `init` (lines 96-108) is modelled by
  `sysModifiedHandler` / `dispatch`.

All recursion is structural (loops over live arrays are given fuel equal to
the initial array length, which is exactly the number of iterations the
JavaScript loop can perform), so every definition evaluates by `decide`.
-/

namespace Cartified

instance {ε α : Type} [DecidableEq ε] [DecidableEq α] : DecidableEq (Except ε α) := fun x y =>
  match x, y with
  | .ok a, .ok b => if h : a = b then .isTrue (by rw [h]) else .isFalse (by simp [h])
  | .error a, .error b => if h : a = b then .isTrue (by rw [h]) else .isFalse (by simp [h])
  | .ok _, .error _ => .isFalse (by simp)
  | .error _, .ok _ => .isFalse (by simp)

/-- An item of the cart: the `{id, qty}` records of `src/ng-cart.js`
(see `cart.addItem`, lines 142-160). -/
structure Item where
  id : Nat
  qty : Nat
deriving DecidableEq, Repr

/-! ## Decimal digits

Helpers for the decimal rendering `JSON.stringify` applies to numbers.
`digitsRevFuel` peels least-significant digits; fuel `n` suffices for the
number `n` because each step divides by 10. -/

/-- Least-significant-first decimal digits of `n`, with explicit fuel. -/
def digitsRevFuel : Nat → Nat → List Nat
  | _, 0 => []
  | 0, _ + 1 => []
  | f + 1, n + 1 => (n + 1) % 10 :: digitsRevFuel f ((n + 1) / 10)

/-- Least-significant-first decimal digits of `n`. -/
def digitsRev (n : Nat) : List Nat := digitsRevFuel n n

/-- The character of a decimal digit. -/
def digitChar (d : Nat) : Char := Char.ofNat (48 + d)

/-- Decimal rendering of a number, as `JSON.stringify` prints it. -/
def natChars (n : Nat) : List Char :=
  if n = 0 then ['0'] else (digitsRev n).reverse.map digitChar

/-- The serialized form of one item: `\x7b"id":N,"qty":N\x7d`
(object key order is the insertion order of the `{id, qty}` literals built
by `cart.addItem`, line 154-159). -/
def itemChars (it : Item) : List Char :=
  '\x7b' :: '"' :: 'i' :: 'd' :: '"' :: ':' ::
    (natChars it.id ++ ',' :: '"' :: 'q' :: 't' :: 'y' :: '"' :: ':' ::
      (natChars it.qty ++ ['\x7d']))

/-- Comma-joined serialized items, as `JSON.stringify` joins array
elements. -/
def itemsChars : List Item → List Char
  | [] => []
  | [it] => itemChars it
  | it :: it2 :: rest => itemChars it ++ ',' :: itemsChars (it2 :: rest)

/-- `angular.toJson` on an item list (line 54): the serialized array. -/
def toJson (l : List Item) : List Char := '[' :: (itemsChars l ++ [']'])

/-! ## The parse side of `angular.fromJson` -/

/-- Decimal-digit test. -/
def isDigitC (c : Char) : Bool := decide (48 ≤ c.toNat ∧ c.toNat ≤ 57)

/-- Parse a maximal nonempty digit run into a number. -/
def parseNat (cs : List Char) : Option (Nat × List Char) :=
  let ds := cs.takeWhile isDigitC
  if ds = [] then none
  else some (ds.foldl (fun a c => a * 10 + (c.toNat - 48)) 0, cs.dropWhile isDigitC)

/-- Consume an expected literal character sequence. -/
def parseLit : List Char → List Char → Option (List Char)
  | [], cs => some cs
  | _ :: _, [] => none
  | l :: ls, c :: cs => if c = l then parseLit ls cs else none

/-- The literal between `\x7b` and the id value. -/
def idKey : List Char := ['\x7b', '"', 'i', 'd', '"', ':']

/-- The literal between the id value and the qty value. -/
def qtyKey : List Char := [',', '"', 'q', 't', 'y', '"', ':']

/-- Parse one serialized item. -/
def parseItem (cs : List Char) : Option (Item × List Char) :=
  match parseLit idKey cs with
  | none => none
  | some r1 =>
    match parseNat r1 with
    | none => none
    | some (i, r2) =>
      match parseLit qtyKey r2 with
      | none => none
      | some r3 =>
        match parseNat r3 with
        | none => none
        | some (q, r4) =>
          match r4 with
          | '\x7d' :: r5 => some (⟨i, q⟩, r5)
          | _ => none

/-- Parse a nonempty comma-separated item sequence.  Fuel bounds the number
of items; the callers pass the character count, which dominates it. -/
def parseItems : Nat → List Char → Option (List Item × List Char)
  | 0, _ => none
  | f + 1, cs =>
    match parseItem cs with
    | none => none
    | some (it, rest) =>
      match rest with
      | ',' :: rest2 =>
        match parseItems f rest2 with
        | none => none
        | some (l, r) => some (it :: l, r)
      | _ => some ([it], rest)

/-- `angular.fromJson` (`JSON.parse`) on a blob, restricted to the
serialized item-list grammar; anything else is a parse failure (a thrown
`SyntaxError` in JavaScript). -/
def fromJson (cs : List Char) : Except String (List Item) :=
  match cs with
  | ['[', ']'] => .ok []
  | '[' :: rest =>
    match parseItems cs.length rest with
    | some (l, [']']) => .ok l
    | _ => .error "malformed JSON"
  | _ => .error "malformed JSON"

/-! ## The storage wrapper (lines 35-86) -/

/-- `storage.fetch` (lines 61-68): read the blob under the cart key; a
missing or empty record reads as `[]`, anything else goes through
`angular.fromJson` — whose failures propagate (the `Except.error` case
models the thrown `SyntaxError`). -/
def fetch (blob : Option (List Char)) : Except String (List Item) :=
  match blob with
  | none => .ok []
  | some cs => if cs.length = 0 then .ok [] else fromJson cs

/-- `storage.save` (lines 53-55): the blob written for an item list. -/
def saveBlob (l : List Item) : List Char := toJson l

/-! ## Correctness of the parse side against the print side -/

/-- The value of a least-significant-first digit list. -/
def num10 : List Nat → Nat
  | [] => 0
  | d :: ds => d + 10 * num10 ds

lemma digitsRevFuel_lt_ten : ∀ (f n d : Nat), d ∈ digitsRevFuel f n → d < 10 := by
  intro f
  induction f with
  | zero => intro n d h; cases n <;> simp [digitsRevFuel] at h
  | succ f ih =>
    intro n d h
    cases n with
    | zero => simp [digitsRevFuel] at h
    | succ n =>
      simp only [digitsRevFuel, List.mem_cons] at h
      rcases h with h | h
      · omega
      · exact ih _ _ h

lemma num10_digitsRevFuel : ∀ (f n : Nat), n ≤ f → num10 (digitsRevFuel f n) = n := by
  intro f
  induction f with
  | zero =>
    intro n h
    have : n = 0 := by omega
    subst this
    simp [digitsRevFuel, num10]
  | succ f ih =>
    intro n h
    cases n with
    | zero => simp [digitsRevFuel, num10]
    | succ n =>
      have hlt : (n + 1) / 10 < n + 1 := Nat.div_lt_self (Nat.succ_pos n) (by norm_num)
      have hdiv : (n + 1) / 10 ≤ f := by omega
      simp only [digitsRevFuel, num10, ih _ hdiv]
      omega

lemma digitChar_isDigit (d : Nat) (h : d < 10) : isDigitC (digitChar d) = true := by
  interval_cases d <;> decide

lemma digitChar_toNat (d : Nat) (h : d < 10) : (digitChar d).toNat = 48 + d := by
  interval_cases d <;> decide

lemma natChars_all_digit (n : Nat) : ∀ c ∈ natChars n, isDigitC c = true := by
  intro c hc
  by_cases h : n = 0
  · subst h
    have h0 : natChars 0 = ['0'] := rfl
    rw [h0, List.mem_singleton] at hc
    subst hc
    decide
  · simp only [natChars, if_neg h, List.mem_map, List.mem_reverse] at hc
    obtain ⟨d, hd, rfl⟩ := hc
    exact digitChar_isDigit d (digitsRevFuel_lt_ten _ _ _ hd)

lemma natChars_ne_nil (n : Nat) : natChars n ≠ [] := by
  by_cases h : n = 0
  · subst h; decide
  · simp only [natChars, if_neg h]
    cases n with
    | zero => exact absurd rfl h
    | succ n => simp [digitsRev, digitsRevFuel]

lemma decode_rev : ∀ (ds : List Nat), (∀ d ∈ ds, d < 10) → ∀ a : Nat,
    ((ds.reverse).map digitChar).foldl (fun acc c => acc * 10 + (c.toNat - 48)) a
      = a * 10 ^ ds.length + num10 ds := by
  intro ds
  induction ds with
  | nil => intro _ a; simp [num10]
  | cons d ds ih =>
    intro h a
    have hd : d < 10 := h d (by simp)
    have hds : ∀ x ∈ ds, x < 10 := fun x hx => h x (by simp [hx])
    simp only [List.reverse_cons, List.map_append, List.foldl_append, ih hds a,
      List.map_cons, List.map_nil, List.foldl_cons, List.foldl_nil]
    rw [digitChar_toNat d hd]
    have h48 : 48 + d - 48 = d := by omega
    rw [h48, num10, List.length_cons, pow_succ]
    ring

lemma decode_natChars (n : Nat) :
    (natChars n).foldl (fun a c => a * 10 + (c.toNat - 48)) 0 = n := by
  by_cases h : n = 0
  · subst h; decide
  · simp only [natChars, if_neg h]
    rw [decode_rev (digitsRev n) (fun d hd => digitsRevFuel_lt_ten n n d hd) 0]
    simp [digitsRev, num10_digitsRevFuel n n le_rfl]

lemma takeWhile_digits_append : ∀ (xs : List Char) (y : Char) (ys : List Char),
    (∀ c ∈ xs, isDigitC c = true) → isDigitC y = false →
    (xs ++ y :: ys).takeWhile isDigitC = xs ∧
      (xs ++ y :: ys).dropWhile isDigitC = y :: ys := by
  intro xs
  induction xs with
  | nil =>
    intro y ys _ hy
    constructor <;> simp [List.takeWhile_cons, List.dropWhile_cons, hy]
  | cons x xs ih =>
    intro y ys hx hy
    have hxd := hx x (by simp)
    have ih2 := ih y ys (fun c hc => hx c (by simp [hc])) hy
    constructor <;>
      simp [List.takeWhile_cons, List.dropWhile_cons, hxd, ih2.1, ih2.2]

lemma parseNat_inv (n : Nat) (y : Char) (ys : List Char) (hy : isDigitC y = false) :
    parseNat (natChars n ++ y :: ys) = some (n, y :: ys) := by
  obtain ⟨ht, hd⟩ := takeWhile_digits_append (natChars n) y ys (natChars_all_digit n) hy
  simp only [parseNat, ht, hd]
  rw [if_neg (natChars_ne_nil n)]
  rw [decode_natChars n]

lemma parseLit_inv : ∀ (ls cs : List Char), parseLit ls (ls ++ cs) = some cs := by
  intro ls
  induction ls with
  | nil => intro cs; rfl
  | cons l ls ih => intro cs; simp [parseLit, ih]

lemma parseItem_inv (it : Item) (rest : List Char) :
    parseItem (itemChars it ++ rest) = some (it, rest) := by
  have h1 : itemChars it ++ rest
      = idKey ++ (natChars it.id ++ ',' ::
          ('"' :: 'q' :: 't' :: 'y' :: '"' :: ':' :: (natChars it.qty ++ '\x7d' :: rest))) := by
    simp [itemChars, idKey]
  have h2 : (',' :: ('"' :: 'q' :: 't' :: 'y' :: '"' :: ':' ::
        (natChars it.qty ++ '\x7d' :: rest)))
      = qtyKey ++ (natChars it.qty ++ '\x7d' :: rest) := by
    simp [qtyKey]
  rw [h1]
  simp only [parseItem, parseLit_inv]
  simp only [parseNat_inv it.id ',' _ (by decide)]
  simp only [h2, parseLit_inv]
  simp only [parseNat_inv it.qty '\x7d' rest (by decide)]

lemma itemsChars_cons (it : Item) (rest : List Item) :
    ∃ cs, itemsChars (it :: rest) = '\x7b' :: cs := by
  cases rest with
  | nil => exact ⟨_, rfl⟩
  | cons it2 rest => exact ⟨_, rfl⟩

lemma parseItems_inv : ∀ (l : List Item) (f : Nat), l ≠ [] → l.length ≤ f →
    parseItems f (itemsChars l ++ [']']) = some (l, [']']) := by
  intro l
  induction l with
  | nil => intro f h _; exact absurd rfl h
  | cons it rest ih =>
    intro f _ hf
    cases f with
    | zero => simp at hf
    | succ f =>
      cases rest with
      | nil =>
        simp only [itemsChars, parseItems, parseItem_inv it [']']]
        rfl
      | cons it2 rest2 =>
        have hne : it2 :: rest2 ≠ [] := by simp
        have hlen : (it2 :: rest2).length ≤ f := by
          simp only [List.length_cons] at hf ⊢; omega
        have hassoc : itemsChars (it :: it2 :: rest2) ++ [']']
            = itemChars it ++ (',' :: (itemsChars (it2 :: rest2) ++ [']'])) := by
          simp [itemsChars]
        rw [hassoc]
        simp only [parseItems, parseItem_inv it (',' :: (itemsChars (it2 :: rest2) ++ [']'])),
          ih f hne hlen]

lemma itemsChars_length_ge (l : List Item) : l.length ≤ (itemsChars l).length := by
  induction l with
  | nil => simp [itemsChars]
  | cons it rest ih =>
    cases rest with
    | nil => simp [itemsChars, itemChars]
    | cons it2 rest2 =>
      simp only [itemsChars, List.length_append, List.length_cons, itemChars] at ih ⊢
      omega

lemma fromJson_eval (cs2 : List Char) :
    fromJson ('[' :: '\x7b' :: cs2) =
      (match parseItems ('[' :: '\x7b' :: cs2).length ('\x7b' :: cs2) with
       | some (l, [']']) => Except.ok l
       | _ => Except.error "malformed JSON") := rfl

lemma fromJson_toJson (l : List Item) : fromJson (toJson l) = .ok l := by
  match l with
  | [] => decide
  | it :: rest =>
    obtain ⟨cs, hcs⟩ := itemsChars_cons it rest
    have hlen : (it :: rest).length ≤ ('[' :: '\x7b' :: (cs ++ [']'])).length := by
      have h2 := itemsChars_length_ge (it :: rest)
      rw [hcs] at h2
      simp only [List.length_cons, List.length_append] at h2 ⊢
      omega
    have hparse := parseItems_inv (it :: rest) (('[' :: '\x7b' :: (cs ++ [']'])).length)
      (by simp) hlen
    rw [hcs] at hparse
    have hJ : toJson (it :: rest) = '[' :: '\x7b' :: (cs ++ [']']) := by
      rw [toJson, hcs]; rfl
    rw [hJ, fromJson_eval]
    rw [show ('\x7b' :: cs) ++ [']'] = '\x7b' :: (cs ++ [']']) from rfl] at hparse
    rw [hparse]
    rfl


/-! ## The event registry (lines 20, 300-326)

Handlers are arbitrary functions; for the registry claims only their
identity matters, so bindings carry an opaque tag instead of a closure. -/

/-- An entry of `eventStack` (line 301): `{type: type, fn: fn}`. -/
structure Binding where
  type : String
  tag : Nat
deriving DecidableEq, Repr

/-- JavaScript `str.split(' ')` (line 311): split on every single blank,
keeping empty fragments. -/
def splitAux : List Char → List Char → List (List Char)
  | [], acc => [acc.reverse]
  | c :: rest, acc =>
    if c = ' ' then acc.reverse :: splitAux rest [] else splitAux rest (c :: acc)

/-- The space-split type list of a compound event string. -/
def splitTypes (s : String) : List String :=
  (splitAux s.toList []).map (fun cs => String.mk cs)

/-- `cart.fireCustomEvent` (310-315) walks `eventStack` in order and invokes
every binding whose type is a member of the split type list; this returns
the bindings invoked, in that order.  (The `ran` property written on line
313 affects neither membership nor order and is not modelled.) -/
def fireInvokes (stack : List Binding) (typeStr : String) : List Binding :=
  stack.filter (fun b => (splitTypes typeStr).contains b.type)

/-- The `for (var i in eventStack)` loop of `cart.unbindEvent` (322-326).
JavaScript `for-in` visits ascending integer keys that still exist when
visited, so after `splice(i, 1)` the element shifted into slot `i` is never
examined: the traversal proceeds to `i + 1` over the shrunk array.  The
index grows by one per step and the loop stops once it reaches the
(non-increasing) length, so fuel equal to the initial length is exact. -/
def unbindLoop (type : String) : Nat → List Binding → Nat → List Binding
  | 0, stack, _ => stack
  | f + 1, stack, i =>
    if h : i < stack.length then
      if (stack.get ⟨i, h⟩).type = type then unbindLoop type f (stack.eraseIdx i) (i + 1)
      else unbindLoop type f stack (i + 1)
    else stack

/-- `cart.unbindEvent` (322-326). -/
def unbindEvent (stack : List Binding) (type : String) : List Binding :=
  unbindLoop type stack.length stack 0

/-! ## The cart state and operations (lines 92-280) -/

/-- The storage-visible state the service closes over: the blob held by
`localStorage` under the cart key, and `storage.allItems` (line 46), the
in-memory mirror that only the `sys-modified` handler reassigns. -/
structure St where
  blob : Option (List Char)
  allItems : List Item
deriving DecidableEq, Repr

/-- `cart.getCart` (124-140): calls `storage.fetch()` afresh and hands the
same list to the callback, the `then` accessor and the `items` field; we
return those items (a parse failure propagates). -/
def getCartItems (st : St) : Except String (List Item) := fetch st.blob

/-- The `filter` loop of `cart.getById` (218-233): `idx` ends as the index
of the last match (`-1` when there is none) and `filteredItems.pop()`
yields the last match, so both accumulators track the most recent hit. -/
def getByIdLoop (id : Nat) : List Item → Nat → Int → Option Item → Option Item × Int
  | [], _, idx, found => (found, idx)
  | it :: rest, pos, idx, found =>
    if it.id = id then getByIdLoop id rest (pos + 1) (pos : Int) (some it)
    else getByIdLoop id rest (pos + 1) idx found

/-- `cart.getById` (218-233) on an explicit item list (`itemsToUse`, or the
freshly fetched cart when omitted — the callers below pass the fetched
list). -/
def getById (id : Nat) (items : List Item) : Option Item × Int :=
  getByIdLoop id items 0 (-1) none

/-- `cartItems[existing.index].qty += item.qty` (line 185). -/
def bumpQty : List Item → Nat → Nat → List Item
  | [], _, _ => []
  | it :: rest, 0, dq => ⟨it.id, it.qty + dq⟩ :: rest
  | it :: rest, i + 1, dq => it :: bumpQty rest i dq

/-- One iteration of the `angular.forEach` body in `cart.addItems`
(175-190): increment the quantity at the found index, or push the entry. -/
def addOne (items : List Item) (entry : Item) : List Item :=
  let existing := getById entry.id items
  if existing.2 = -1 then items ++ [entry]
  else bumpQty items existing.2.toNat entry.qty

/-- The whole `angular.forEach` of `cart.addItems` (175-190): processes the
entries left to right, firing `"modified added sys-modified"` with the live
list after each entry.  Returns the final list and, in order, the list
contents carried by each fire at the moment it was delivered. -/
def addItemsLoop : List Item → List Item → List Item × List (List Item)
  | items, [] => (items, [])
  | items, e :: es =>
    let items2 := addOne items e
    let r := addItemsLoop items2 es
    (r.1, items2 :: r.2)

/-- The compound type string fired on line 189. -/
def addedEvent : String := "modified added sys-modified"

/-- `cart.addItem` (142-160): `qty = qty || 1` substitutes 1 for an omitted
or falsy (zero) quantity; an `undefined` id throws `errors.idMandatory`;
otherwise the call delegates to `addItems` with the single `{id, qty}`
entry.  `Option` arguments model the `undefined` cases; the result is what
`addItems` returns — final list plus the fired snapshots. -/
def addItem (items : List Item) (id : Option Nat) (qty : Option Nat) :
    Except String (List Item × List (List Item)) :=
  let q : Nat :=
    match qty with
    | none => 1
    | some 0 => 1
    | some (k + 1) => k + 1
  match id with
  | none => .error "Item id missing"
  | some i => .ok (addItemsLoop items [⟨i, q⟩])

/-- A ReviewGate decision: the external reviewer accepts or rejects the
pending save. -/
inductive Decision where
  | accept
  | reject (err : String)
deriving DecidableEq, Repr

/-- The `Reviewer` service shipped in `src/ng-cart.js` (lines 2-13) calls
the success continuation unconditionally. -/
def reviewerDecision : Decision := .accept

/-- `cart.save` (199-210) plus `storage.persist` (74-77): on acceptance,
`storage.persist` serializes the current in-memory `storage.allItems` into
the store and fires `"persisted"` (with no payload); on rejection, the
failure handler re-throws `err` and nothing is written.  Returns the new
state, the outcome surfaced to the call stack, and the fired event types. -/
def saveOp (st : St) (d : Decision) : St × Except String Unit × List String :=
  match d with
  | .accept => ({ st with blob := some (saveBlob st.allItems) }, .ok (), ["persisted"])
  | .reject err => (st, .error err, [])

/-- The handler `init` binds to `"sys-modified"` (96-108): reassign
`storage.allItems`, broadcast via `cart.refresh` (a fire-and-forget
`$broadcast` that does not touch cart state), then `cart.save()` — which,
with the shipped always-accepting `Reviewer`, persists immediately. -/
def sysModifiedHandler (st : St) (items : List Item) : St :=
  (saveOp { st with allItems := items } reviewerDecision).1

/-- State effect of `cart.fireCustomEvent typeStr data` under the single
binding `init` installs: the handler runs iff `"sys-modified"` is among the
space-split types (lines 311-313). -/
def dispatch (st : St) (typeStr : String) (data : List Item) : St :=
  if (splitTypes typeStr).contains "sys-modified" then sysModifiedHandler st data else st

/-- `cart.addItems` at state level (162-193): re-reads the cart from
storage (line 170), runs the loop, and lets each fired event reach the
`sys-modified` handler.  The handler only writes `blob` / `allItems`,
which the loop never reads (it keeps using its local `cartItems`), so its
net effect is the in-order fold of `dispatch` over the fired snapshots. -/
def addItemsSt (st : St) (entries : List Item) :
    Except String (St × List Item × List (List Item)) := do
  let items ← fetch st.blob
  let r := addItemsLoop items entries
  let st2 := r.2.foldl (fun s snap => dispatch s addedEvent snap) st
  return (st2, r.1, r.2)

/-- `cart.remove` (240-250): the inner `getById` call and the explicit
`getCart().items` both re-fetch the same blob and therefore see the same
list.  When a match exists, `splice(result.index, 1)` deletes the element
at the last matching index and `"modified removed sys-modified"` fires with
the result; otherwise nothing happens and `false` is returned. -/
def removeOp (items : List Item) (id : Nat) :
    List Item × Bool × List (String × List Item) :=
  let result := getById id items
  if result.2 = -1 then (items, false, [])
  else
    let items2 := items.eraseIdx result.2.toNat
    (items2, true, [("modified removed sys-modified", items2)])

/-- `cart.changeQuantity` (266-280): on a match, `updatedItem.qty = qty`
rewrites the found item and `splice(result.index, 1, updatedItem)` puts it
back at the same (last matching) index; `"modified updated sys-modified"`
fires with the updated list, which the optional callback also receives.  On
no match, `false` and no effect.  (`result.item` is present whenever
`result.index` is not `-1`, see `getById_isSome_of_ne`; the `none` arm
mirrors the structure only.) -/
def changeQuantityOp (items : List Item) (id qty : Nat) :
    List Item × Bool × List (String × List Item) :=
  let result := getById id items
  if result.2 = -1 then (items, false, [])
  else
    match result.1 with
    | some m =>
      let items2 := items.set result.2.toNat ⟨m.id, qty⟩
      (items2, true, [("modified updated sys-modified", items2)])
    | none => (items, false, [])

/-! ## Lemmas about `getById` and list surgery -/

lemma getByIdLoop_absent (id : Nat) :
    ∀ (l : List Item) (pos : Nat) (idx : Int) (found : Option Item),
      (∀ it ∈ l, it.id ≠ id) → getByIdLoop id l pos idx found = (found, idx) := by
  intro l
  induction l with
  | nil => intro pos idx found _; rfl
  | cons it rest ih =>
    intro pos idx found h
    have hne : it.id ≠ id := h it (by simp)
    simp only [getByIdLoop, if_neg hne]
    exact ih _ _ _ (fun x hx => h x (by simp [hx]))

lemma getByIdLoop_append (id : Nat) :
    ∀ (l1 l2 : List Item) (pos : Nat) (idx : Int) (found : Option Item),
      (∀ it ∈ l1, it.id ≠ id) →
      getByIdLoop id (l1 ++ l2) pos idx found
        = getByIdLoop id l2 (pos + l1.length) idx found := by
  intro l1
  induction l1 with
  | nil => intro l2 pos idx found _; simp
  | cons it rest ih =>
    intro l2 pos idx found h
    have hne : it.id ≠ id := h it (by simp)
    simp only [List.cons_append, getByIdLoop, if_neg hne, List.append_eq]
    rw [ih l2 (pos + 1) idx found (fun x hx => h x (by simp [hx]))]
    congr 1
    simp only [List.length_cons]
    omega

lemma getById_found (l1 : List Item) (it : Item) (l2 : List Item) (id : Nat)
    (hit : it.id = id) (h1 : ∀ x ∈ l1, x.id ≠ id) (h2 : ∀ x ∈ l2, x.id ≠ id) :
    getById id (l1 ++ it :: l2) = (some it, (l1.length : Int)) := by
  rw [getById, getByIdLoop_append id l1 (it :: l2) 0 (-1) none h1]
  simp only [getByIdLoop, if_pos hit]
  rw [getByIdLoop_absent id l2 _ _ _ h2]
  simp

lemma getById_absent (items : List Item) (id : Nat)
    (h : ∀ x ∈ items, x.id ≠ id) : getById id items = (none, -1) :=
  getByIdLoop_absent id items 0 (-1) none h

lemma getByIdLoop_idx_nonneg (id : Nat) :
    ∀ (l : List Item) (pos : Nat) (idx : Int) (found : Option Item),
      0 ≤ idx → 0 ≤ (getByIdLoop id l pos idx found).2 := by
  intro l
  induction l with
  | nil => intro pos idx found h; exact h
  | cons it rest ih =>
    intro pos idx found h
    by_cases hid : it.id = id
    · simp only [getByIdLoop, if_pos hid]
      exact ih _ _ _ (by positivity)
    · simp only [getByIdLoop, if_neg hid]
      exact ih _ _ _ h

lemma getByIdLoop_mem_nonneg (id : Nat) :
    ∀ (l : List Item) (pos : Nat) (idx : Int) (found : Option Item),
      (∃ it ∈ l, it.id = id) → 0 ≤ (getByIdLoop id l pos idx found).2 := by
  intro l
  induction l with
  | nil => intro pos idx found h; simp at h
  | cons it rest ih =>
    intro pos idx found h
    by_cases hid : it.id = id
    · simp only [getByIdLoop, if_pos hid]
      exact getByIdLoop_idx_nonneg id rest _ _ _ (by positivity)
    · simp only [getByIdLoop, if_neg hid]
      rcases h with ⟨x, hx, hxid⟩
      rcases List.mem_cons.mp hx with rfl | hx2
      · exact absurd hxid hid
      · exact ih _ _ _ ⟨x, hx2, hxid⟩

lemma getById_absent_of_neg (items : List Item) (id : Nat)
    (h : (getById id items).2 = -1) : ∀ x ∈ items, x.id ≠ id := by
  intro x hx heq
  have := getByIdLoop_mem_nonneg id items 0 (-1) none ⟨x, hx, heq⟩
  rw [getById] at h
  omega

lemma getByIdLoop_found_or (id : Nat) :
    ∀ (l : List Item) (pos : Nat) (idx : Int) (found : Option Item),
      getByIdLoop id l pos idx found = (found, idx)
        ∨ (getByIdLoop id l pos idx found).1.isSome := by
  intro l
  induction l with
  | nil => intro pos idx found; exact Or.inl rfl
  | cons it rest ih =>
    intro pos idx found
    by_cases hid : it.id = id
    · simp only [getByIdLoop, if_pos hid]
      rcases ih (pos + 1) (pos : Int) (some it) with h | h
      · rw [h]; exact Or.inr rfl
      · exact Or.inr h
    · simp only [getByIdLoop, if_neg hid]
      exact ih _ _ _

lemma getById_isSome_of_ne (id : Nat) (items : List Item)
    (h : (getById id items).2 ≠ -1) : (getById id items).1.isSome := by
  rcases getByIdLoop_found_or id items 0 (-1) none with h2 | h2
  · rw [getById, h2] at h; simp at h
  · exact h2

lemma eraseIdx_at_append (l1 : List Item) (it : Item) (l2 : List Item) :
    (l1 ++ it :: l2).eraseIdx l1.length = l1 ++ l2 := by
  induction l1 with
  | nil => rfl
  | cons x xs ih => simp only [List.cons_append, List.length_cons, List.eraseIdx, List.append_eq, ih]

lemma set_at_append (l1 : List Item) (it u : Item) (l2 : List Item) :
    (l1 ++ it :: l2).set l1.length u = l1 ++ u :: l2 := by
  induction l1 with
  | nil => rfl
  | cons x xs ih => simp only [List.cons_append, List.length_cons, List.set, List.append_eq, ih]

lemma bumpQty_at_append (l1 : List Item) (it : Item) (l2 : List Item) (dq : Nat) :
    bumpQty (l1 ++ it :: l2) l1.length dq = l1 ++ ⟨it.id, it.qty + dq⟩ :: l2 := by
  induction l1 with
  | nil => rfl
  | cons x xs ih => simp only [List.cons_append, List.length_cons, bumpQty, List.append_eq, ih]

lemma bumpQty_map_id : ∀ (items : List Item) (i dq : Nat),
    (bumpQty items i dq).map Item.id = items.map Item.id := by
  intro items
  induction items with
  | nil => intro i dq; rfl
  | cons it rest ih =>
    intro i dq
    cases i with
    | zero => rfl
    | succ i => simp only [bumpQty, List.map_cons, ih]

lemma nodup_decomp (l1 : List Item) (it : Item) (l2 : List Item)
    (h : (((l1 ++ it :: l2).map Item.id)).Nodup) :
    (∀ x ∈ l1, x.id ≠ it.id) ∧ ∀ x ∈ l2, x.id ≠ it.id := by
  rw [List.map_append, List.map_cons, List.nodup_middle, List.nodup_cons] at h
  obtain ⟨hnot, -⟩ := h
  rw [List.mem_append] at hnot
  push_neg at hnot
  constructor
  · intro x hx heq
    exact hnot.1 (heq ▸ List.mem_map_of_mem Item.id hx)
  · intro x hx heq
    exact hnot.2 (heq ▸ List.mem_map_of_mem Item.id hx)

/-! ## Lemmas about `addOne`, `addItemsLoop` and the `sys-modified` wiring -/

lemma addOne_absent (items : List Item) (e : Item)
    (h : ∀ x ∈ items, x.id ≠ e.id) : addOne items e = items ++ [e] := by
  simp only [addOne, getById_absent items e.id h]
  rfl

lemma addOne_present (l1 : List Item) (it : Item) (l2 : List Item) (e : Item)
    (hit : it.id = e.id) (h1 : ∀ x ∈ l1, x.id ≠ e.id) (h2 : ∀ x ∈ l2, x.id ≠ e.id) :
    addOne (l1 ++ it :: l2) e = l1 ++ ⟨it.id, it.qty + e.qty⟩ :: l2 := by
  have hg := getById_found l1 it l2 e.id hit h1 h2
  simp only [addOne, hg]
  rw [if_neg (by omega : ¬((l1.length : Int) = -1))]
  rw [show ((l1.length : Int)).toNat = l1.length from Int.toNat_natCast _]
  exact bumpQty_at_append l1 it l2 e.qty

lemma addOne_nodup (items : List Item) (e : Item)
    (h : (items.map Item.id).Nodup) : ((addOne items e).map Item.id).Nodup := by
  by_cases hidx : (getById e.id items).2 = -1
  · have habs := getById_absent_of_neg items e.id hidx
    rw [addOne_absent items e habs, List.map_append, List.map_singleton]
    rw [List.nodup_append]
    refine ⟨h, List.nodup_singleton _, ?_⟩
    intro a ha hb
    rw [List.mem_singleton] at hb
    subst hb
    obtain ⟨x, hx, hxid⟩ := List.mem_map.mp ha
    exact habs x hx hxid
  · simp only [addOne, if_neg hidx, bumpQty_map_id]
    exact h

lemma addItemsLoop_fst : ∀ (es items : List Item),
    (addItemsLoop items es).1 = es.foldl addOne items := by
  intro es
  induction es with
  | nil => intro items; rfl
  | cons e es ih => intro items; simp only [addItemsLoop, List.foldl_cons, ih]

lemma addItemsLoop_snd : ∀ (es items : List Item),
    (addItemsLoop items es).2
      = (List.range es.length).map (fun i => (es.take (i + 1)).foldl addOne items) := by
  intro es
  induction es with
  | nil => intro items; rfl
  | cons e es ih =>
    intro items
    simp only [addItemsLoop, ih (addOne items e), List.length_cons,
      List.range_succ_eq_map, List.map_cons, List.map_map]
    congr 1

lemma addItemsLoop_nodup : ∀ (es items : List Item),
    (items.map Item.id).Nodup → ((addItemsLoop items es).1.map Item.id).Nodup := by
  intro es
  induction es with
  | nil => intro items h; exact h
  | cons e es ih =>
    intro items h
    simp only [addItemsLoop]
    exact ih (addOne items e) (addOne_nodup items e h)

lemma addItemsLoop_getLast : ∀ (es items : List Item), es ≠ [] →
    (addItemsLoop items es).2.getLast? = some ((addItemsLoop items es).1) := by
  intro es
  induction es with
  | nil => intro items h; exact absurd rfl h
  | cons e es ih =>
    intro items _
    cases es with
    | nil => rfl
    | cons e2 es2 =>
      have h2 := ih (addOne items e) (by simp)
      simp only [addItemsLoop] at h2 ⊢
      rw [List.getLast?_cons_cons] at *
      convert h2 using 2

lemma dispatch_added (s : St) (snap : List Item) :
    dispatch s addedEvent snap = ⟨some (saveBlob snap), snap⟩ := by
  have h : (splitTypes addedEvent).contains "sys-modified" = true := by decide
  unfold dispatch
  rw [h]
  rfl

lemma foldl_dispatch : ∀ (snaps : List (List Item)) (st : St) (lst : List Item),
    snaps.getLast? = some lst →
    snaps.foldl (fun s snap => dispatch s addedEvent snap) st
      = ⟨some (saveBlob lst), lst⟩ := by
  intro snaps
  induction snaps with
  | nil => intro st lst h; simp at h
  | cons s0 snaps ih =>
    intro st lst h
    cases snaps with
    | nil =>
      simp only [List.getLast?_singleton, Option.some_inj] at h
      subst h
      simp only [List.foldl_cons, List.foldl_nil, dispatch_added]
    | cons s1 snaps2 =>
      rw [List.getLast?_cons_cons] at h
      rw [List.foldl_cons]
      exact ih (dispatch st addedEvent s0) lst h

/-- Shared with the claims about the load path: the store's save blob reads
back as the saved list. -/
lemma fetch_saveBlob (l : List Item) : fetch (some (saveBlob l)) = .ok l := by
  show (if (saveBlob l).length = 0 then Except.ok [] else fromJson (saveBlob l)) = .ok l
  rw [if_neg (by simp [saveBlob, toJson])]
  exact fromJson_toJson l

/-! ## The claims -/

/-- C1 (evidence of the code bug): the claim says `unbindEvent t` removes
every binding of type `t`, even adjacent ones, so that a subsequent fire of
`t` invokes none of them.  On the registry
`[{modified, 0}, {modified, 1}, {other, 2}]`, the splice-while-iterating
loop of lines 322-326 deletes the first `modified` binding and then skips
the second one (it shifts into the vacated slot, which `for-in` never
revisits): the second binding survives and a subsequent fire of
`"modified"` still invokes it.  Other-type bindings are kept, as the claim
requires. -/
theorem unbind_adjacent_bug :
    unbindEvent [⟨"modified", 0⟩, ⟨"modified", 1⟩, ⟨"other", 2⟩] "modified"
      = [⟨"modified", 1⟩, ⟨"other", 2⟩] ∧
    fireInvokes
        (unbindEvent [⟨"modified", 0⟩, ⟨"modified", 1⟩, ⟨"other", 2⟩] "modified")
        "modified"
      = [⟨"modified", 1⟩] := by decide

/-- C2 (counterexample): the load path is not total — on the non-empty
malformed record consisting of the single character `\x7b`, `storage.fetch`
propagates a parse failure (in JavaScript, `angular.fromJson` throws a
`SyntaxError`) instead of reading the record as the empty list. -/
theorem fetch_malformed_errors :
    fetch (some ['\x7b']) = .error "malformed JSON" ∧
    ¬ fetch (some ['\x7b']) = .ok [] := by decide

/-- C2 (amended): the load path returns `[]` for an absent or empty record;
a non-empty record is fed to JSON parsing, whose failure on a malformed
blob propagates (throws) instead of yielding `[]`; and a non-empty list is
returned only when the blob deserializes to one. -/
theorem fetch_amended (cs : List Char) (l : List Item) :
    fetch none = .ok [] ∧ fetch (some []) = .ok [] ∧
    (fetch (some cs) = .ok l → l ≠ [] → fromJson cs = .ok l) := by
  refine ⟨rfl, rfl, ?_⟩
  intro h hne
  by_cases hlen : cs.length = 0
  · rw [List.length_eq_zero] at hlen
    subst hlen
    have h2 : (Except.ok ([] : List Item) : Except String (List Item)) = .ok l := h
    injection h2 with h3
    exact absurd h3.symm hne
  · have heq : fetch (some cs) = fromJson cs := by
      show (if cs.length = 0 then Except.ok [] else fromJson cs) = fromJson cs
      rw [if_neg hlen]
    rw [← heq]
    exact h

/-- C2 (amended, witness): the blob saved for `[(1, 2)]` deserializes back
to it. -/
theorem fetch_amended_witness :
    fromJson (saveBlob [⟨1, 2⟩]) = .ok [⟨1, 2⟩] :=
  (fetch_amended (saveBlob [⟨1, 2⟩]) [⟨1, 2⟩]).2.2 (by decide) (by decide)

/-- C3: for every state and review decision, a rejected review leaves the
persisted record exactly as it was and re-raises the rejection, while an
accepted review persists the current in-memory list and fires
`"persisted"`. -/
theorem save_review (st : St) (d : Decision) :
    (∀ err, d = .reject err → saveOp st d = (st, .error err, [])) ∧
    (d = .accept →
      saveOp st d
        = ({ st with blob := some (saveBlob st.allItems) }, .ok (), ["persisted"])) := by
  constructor
  · intro err h
    subst h
    rfl
  · intro h
    subst h
    rfl

/-- C3 (witness): a concrete rejected save leaves the state untouched and
surfaces the error. -/
theorem save_review_witness :
    saveOp ⟨some (saveBlob [⟨1, 2⟩]), [⟨9, 9⟩]⟩ (.reject "nope")
      = (⟨some (saveBlob [⟨1, 2⟩]), [⟨9, 9⟩]⟩, .error "nope", []) :=
  (save_review ⟨some (saveBlob [⟨1, 2⟩]), [⟨9, 9⟩]⟩ (.reject "nope")).1 "nope" rfl

/-- C4: on an id-unique cart, adding an entry with an absent id appends it;
adding an entry with a present id increments that entry's quantity in
place; id-uniqueness is preserved, so the cart never holds two items with
the same id; `addItem` with a positive explicit quantity is exactly one
such step (with default 1 handled by C10); and `addItem(5,2)` followed by
`addItem(5,3)` yields the single entry with id 5 and quantity 5. -/
theorem addItem_unique (items : List Item) (e : Item)
    (hnodup : (items.map Item.id).Nodup) :
    ((∀ x ∈ items, x.id ≠ e.id) → addOne items e = items ++ [e]) ∧
    (∀ l1 it l2, items = l1 ++ it :: l2 → it.id = e.id →
        addOne items e = l1 ++ ⟨it.id, it.qty + e.qty⟩ :: l2) ∧
    ((addOne items e).map Item.id).Nodup ∧
    (∀ i q, addItem items (some i) (some (q + 1))
        = .ok (addOne items ⟨i, q + 1⟩, [addOne items ⟨i, q + 1⟩])) ∧
    (addItem [] (some 5) (some 2) = .ok ([⟨5, 2⟩], [[⟨5, 2⟩]]) ∧
      addItem [⟨5, 2⟩] (some 5) (some 3) = .ok ([⟨5, 5⟩], [[⟨5, 5⟩]])) := by
  refine ⟨fun h => addOne_absent items e h, ?_, addOne_nodup items e hnodup, ?_, by decide⟩
  · intro l1 it l2 hdec hit
    subst hdec
    obtain ⟨h1, h2⟩ := nodup_decomp l1 it l2 hnodup
    exact addOne_present l1 it l2 e hit
      (fun x hx => hit ▸ h1 x hx) (fun x hx => hit ▸ h2 x hx)
  · intro i q
    rfl

/-- C4 (witness): adding a fresh id to a concrete id-unique cart appends
it. -/
theorem addItem_unique_witness :
    addOne [⟨1, 1⟩] ⟨2, 3⟩ = [⟨1, 1⟩] ++ [⟨2, 3⟩] :=
  (addItem_unique [⟨1, 1⟩] ⟨2, 3⟩ (by decide)).1 (by decide)

/-- C5: on a state whose record fetches as `items`, `addItems` fires
`"modified added sys-modified"` once per input entry, the `i`-th delivery
carrying the cumulative list after the first `i` entries; the state
persisted at the end is the serialization of the last delivery's snapshot,
which is also the in-memory list and the returned final list. -/
theorem addItems_events (st : St) (entries items : List Item)
    (hfetch : fetch st.blob = .ok items) (hne : entries ≠ []) :
    addItemsSt st entries = .ok
      (⟨some (saveBlob (entries.foldl addOne items)), entries.foldl addOne items⟩,
        entries.foldl addOne items,
        (List.range entries.length).map
          (fun i => (entries.take (i + 1)).foldl addOne items)) ∧
    ((List.range entries.length).map
        (fun i => (entries.take (i + 1)).foldl addOne items)).length = entries.length ∧
    ((List.range entries.length).map
        (fun i => (entries.take (i + 1)).foldl addOne items)).getLast?
      = some (entries.foldl addOne items) := by
  have hsnd := addItemsLoop_snd entries items
  have hfst := addItemsLoop_fst entries items
  have hlast := addItemsLoop_getLast entries items hne
  refine ⟨?_, by simp, ?_⟩
  · have hrun : addItemsSt st entries = .ok
        ((addItemsLoop items entries).2.foldl (fun s snap => dispatch s addedEvent snap) st,
          (addItemsLoop items entries).1, (addItemsLoop items entries).2) := by
      unfold addItemsSt
      rw [hfetch]
      rfl
    rw [hfst, hsnd] at hlast
    rw [hrun, hfst, hsnd, foldl_dispatch _ st _ hlast]
  · rw [hfst, hsnd] at hlast
    exact hlast

/-- C5 (witness): adding the two entries `(1,2)` and `(1,3)` to an empty
store fires twice, persisting the final single-entry list. -/
theorem addItems_events_witness :
    addItemsSt ⟨none, []⟩ [⟨1, 2⟩, ⟨1, 3⟩] = .ok
      (⟨some (saveBlob ([⟨1, 2⟩, ⟨1, 3⟩].foldl addOne ([] : List Item))),
          [⟨1, 2⟩, ⟨1, 3⟩].foldl addOne ([] : List Item)⟩,
        [⟨1, 2⟩, ⟨1, 3⟩].foldl addOne ([] : List Item),
        (List.range ([⟨1, 2⟩, ⟨1, 3⟩] : List Item).length).map
          (fun i => ([⟨1, 2⟩, ⟨1, 3⟩].take (i + 1)).foldl addOne ([] : List Item))) :=
  (addItems_events ⟨none, []⟩ [⟨1, 2⟩, ⟨1, 3⟩] [] rfl (by decide)).1

/-- C6 (counterexample): the claim says that once initialized, `getCart`
returns the authoritative in-memory list whenever it differs from the
persisted record.  In the initialized state whose record holds `[(1, 2)]`
while the in-memory mirror is `[]` (exactly the state after a fresh start
over an old record), `getCart` returns the fetched `[(1, 2)]`, not the
in-memory list. -/
theorem getCart_fresh_read_counterexample :
    getCartItems ⟨some (saveBlob [⟨1, 2⟩]), []⟩ = .ok [⟨1, 2⟩] ∧
    St.allItems ⟨some (saveBlob [⟨1, 2⟩]), []⟩ = [] ∧
    ¬ getCartItems ⟨some (saveBlob [⟨1, 2⟩]), []⟩
        = .ok (St.allItems ⟨some (saveBlob [⟨1, 2⟩]), []⟩) := by decide

/-- C6 (amended): `getCart` performs a fresh `KeyValueStore` read and parse
on every call: its result depends only on the persisted blob and ignores
the in-memory list entirely (an absent record yields `[]`, and a persisted
serialized list is returned as saved). -/
theorem getCart_amended (blob : Option (List Char)) (a1 a2 l : List Item) :
    getCartItems ⟨blob, a1⟩ = getCartItems ⟨blob, a2⟩ ∧
    getCartItems ⟨none, a1⟩ = .ok [] ∧
    getCartItems ⟨some (saveBlob l), a1⟩ = .ok l :=
  ⟨rfl, rfl, fetch_saveBlob l⟩

/-- C7: on an id-unique cart, `remove` returns `true` and deletes exactly
the entry with the given id (all other entries and their order unchanged)
iff an item with that id is present; otherwise it returns `false` and
leaves the cart unchanged — and, being a total function, it throws
nothing. -/
theorem remove_spec (items : List Item) (id : Nat)
    (hnodup : (items.map Item.id).Nodup) :
    ((∀ x ∈ items, x.id ≠ id) → removeOp items id = (items, false, [])) ∧
    (∀ l1 it l2, items = l1 ++ it :: l2 → it.id = id →
        removeOp items id = (l1 ++ l2, true,
          [("modified removed sys-modified", l1 ++ l2)])) := by
  constructor
  · intro h
    simp [removeOp, getById_absent items id h]
  · intro l1 it l2 hdec hit
    subst hdec
    obtain ⟨h1, h2⟩ := nodup_decomp l1 it l2 hnodup
    have hg := getById_found l1 it l2 id hit
      (fun x hx => hit ▸ h1 x hx) (fun x hx => hit ▸ h2 x hx)
    have hne2 : ¬((l1.length : Int) = -1) := by omega
    simp [removeOp, hg, hne2, eraseIdx_at_append l1 it l2]

/-- C7 (witness): removing the present id 1 from the concrete cart
`[(1,2), (2,3)]` deletes exactly that entry. -/
theorem remove_spec_witness :
    removeOp [⟨1, 2⟩, ⟨2, 3⟩] 1
      = ([] ++ [⟨2, 3⟩], true, [("modified removed sys-modified", [] ++ [⟨2, 3⟩])]) :=
  (remove_spec [⟨1, 2⟩, ⟨2, 3⟩] 1 (by decide)).2 [] ⟨1, 2⟩ [⟨2, 3⟩] rfl rfl

/-- C8: on an id-unique cart, `changeQuantity(id, n)` returns `true` and
replaces the matching item's quantity by `n` at the same position (all
other entries and the order unchanged) iff an item with that id is present;
otherwise it returns `false` with no mutation and no event fired. -/
theorem changeQuantity_spec (items : List Item) (id n : Nat)
    (hnodup : (items.map Item.id).Nodup) :
    ((∀ x ∈ items, x.id ≠ id) → changeQuantityOp items id n = (items, false, [])) ∧
    (∀ l1 it l2, items = l1 ++ it :: l2 → it.id = id →
        changeQuantityOp items id n = (l1 ++ ⟨id, n⟩ :: l2, true,
          [("modified updated sys-modified", l1 ++ ⟨id, n⟩ :: l2)])) := by
  constructor
  · intro h
    simp [changeQuantityOp, getById_absent items id h]
  · intro l1 it l2 hdec hit
    subst hdec
    obtain ⟨h1, h2⟩ := nodup_decomp l1 it l2 hnodup
    have hg := getById_found l1 it l2 id hit
      (fun x hx => hit ▸ h1 x hx) (fun x hx => hit ▸ h2 x hx)
    have hne2 : ¬((l1.length : Int) = -1) := by omega
    simp [changeQuantityOp, hg, hne2, hit, set_at_append l1 it ⟨id, n⟩ l2]

/-- C8 (witness): changing the quantity of the present id 2 in the
concrete cart `[(1,2), (2,3)]` rewrites that entry in place. -/
theorem changeQuantity_spec_witness :
    changeQuantityOp [⟨1, 2⟩, ⟨2, 3⟩] 2 10
      = ([⟨1, 2⟩] ++ ⟨2, 10⟩ :: [], true,
         [("modified updated sys-modified", [⟨1, 2⟩] ++ ⟨2, 10⟩ :: [])]) :=
  (changeQuantity_spec [⟨1, 2⟩, ⟨2, 3⟩] 2 10 (by decide)).2 [⟨1, 2⟩] ⟨2, 3⟩ [] rfl rfl

/-- C9: serializing any item list through the store's save path and
reading it back through the store's load path yields the original list,
and loading from an absent or empty store yields `[]`. -/
theorem save_fetch_roundtrip :
    (∀ l : List Item, fetch (some (saveBlob l)) = .ok l) ∧
    fetch none = .ok [] ∧ fetch (some []) = .ok [] :=
  ⟨fun l => fetch_saveBlob l, rfl, rfl⟩

/-- C10: `qty = qty || 1` substitutes the default 1 for every falsy
quantity, so an explicit quantity of 0 behaves exactly like quantity 1 and
like an omitted quantity — in particular it adds (or increments by) 1, not
0. -/
theorem addItem_falsy_qty (items : List Item) (id : Nat) :
    addItem items (some id) (some 0) = addItem items (some id) (some 1) ∧
    addItem items (some id) (some 0) = addItem items (some id) none ∧
    addItem [] (some 7) (some 0) = .ok ([⟨7, 1⟩], [[⟨7, 1⟩]]) :=
  ⟨rfl, rfl, by decide⟩

end Cartified
